import Mathlib

/-!
Verification development for the Automated-Image-Tagger-and-Organizer backend.

The definitions below are a shallow embedding of the Python source:

  * src/backend/app/ml/phash.py            (fingerprints, Hamming distance)
  * src/backend/app/ml/yolo_detector.py    (tag reduction)
  * src/backend/app/tasks/image_processing.py
                                           (processing pipeline, retry loop)
  * src/backend/app/routers/search.py      (duplicate grouping)
  * src/backend/app/routers/images.py      (record creation)

Conventions: machine floats (detection confidences) are modelled as
rationals, since only their ordering is used by this code; database writes
are modelled as explicit operations on an explicit document state; Python
functions that catch every exception internally are total functions here.
-/

namespace ImageTagger

/-! ### Perceptual hashing (src/backend/app/ml/phash.py)

The source strings hold hexadecimal fingerprints produced by the imagehash
library.  `hamming_distance` parses both arguments with
`imagehash.hex_to_hash` and subtracts; any exception (non-hex input, a
length whose bit count is not a perfect square, or a shape mismatch
between the two parsed hashes) is caught and the numeric sentinel 999 is
returned. -/

/-- Value of one hexadecimal digit, as accepted by Python int(hexstr, 16).
Fingerprint strings only ever contain plain hex digits, so the sign,
whitespace and underscore forms Python additionally tolerates are not
modelled. -/
def hexVal (c : Char) : Option Nat :=
  if '0' ≤ c ∧ c ≤ '9' then some (c.toNat - '0'.toNat)
  else if 'a' ≤ c ∧ c ≤ 'f' then some (c.toNat - 'a'.toNat + 10)
  else if 'A' ≤ c ∧ c ≤ 'F' then some (c.toNat - 'A'.toNat + 10)
  else none

/-- Parse a hexadecimal string; none models the ValueError of int(s, 16). -/
def hexToNat? (s : String) : Option Nat :=
  if s.isEmpty then none
  else s.data.foldl (fun acc c => acc.bind fun n => (hexVal c).map fun v => 16 * n + v)
    (some 0)

/-- Big-endian bit expansion of a value to a fixed width, matching the
zero-padded binary formatting used by imagehash.hex_to_hash. -/
def natToBits : Nat → Nat → List Bool
  | 0, _ => []
  | w + 1, v => natToBits w (v / 2) ++ [v % 2 == 1]

/-- Decidable perfect-square test, equivalent to the
int(sqrt(n)) * int(sqrt(n)) == n check performed by hex_to_hash. -/
def isPerfectSquare (n : Nat) : Bool :=
  (List.range (n + 1)).any fun k => k * k == n

/-- Embedding of imagehash.hex_to_hash: the string must be hexadecimal and
its bit count (4 per character) must be a perfect square (the hash is a
square boolean matrix); none models the exception paths. -/
def hex_to_hash (s : String) : Option (List Bool) :=
  match hexToNat? s with
  | none => none
  | some v =>
      let bits := s.length * 4
      if isPerfectSquare bits then some (natToBits bits v) else none

/-- Number of positions at which two equal-length bit lists differ. -/
def countDiff : List Bool → List Bool → Nat
  | a :: as, b :: bs => (if a = b then 0 else 1) + countDiff as bs
  | _, _ => 0

/-- Embedding of phash.hamming_distance: parse both hex strings and count
differing bits; every exception (bad hex, non-square bit count, and the
shape-mismatch TypeError raised by imagehash subtraction when the two
hashes have different sizes) is caught inside the function, which then
returns the numeric sentinel 999.  The Python function can never raise to
its caller. -/
def hamming_distance (hash1 hash2 : String) : Nat :=
  match hex_to_hash hash1, hex_to_hash hash2 with
  | some h1, some h2 => if h1.length = h2.length then countDiff h1 h2 else 999
  | _, _ => 999

/-! ### Object detection and tag reduction (src/backend/app/ml/yolo_detector.py) -/

/-- One raw detection as built by YOLODetector.detect_objects: a label, a
confidence (a float, modelled as a rational since only its ordering is
used), and a pixel bounding box. -/
structure Detection where
  label : String
  confidence : ℚ
  bbox : ℚ × ℚ × ℚ × ℚ
deriving DecidableEq, Repr

/-- A reduced tag: label with its best confidence. -/
abbrev LabelConf := String × ℚ

/-- One step of the label_confidence dict construction in
extract_unique_labels: if the label is absent it is appended (Python dicts
preserve insertion order), otherwise its stored confidence is replaced
only when the new one is strictly greater. -/
def updateLabelConf : List LabelConf → String → ℚ → List LabelConf
  | [], label, conf => [(label, conf)]
  | p :: ps, label, conf =>
      if p.1 = label then
        if conf > p.2 then (label, conf) :: ps else p :: ps
      else p :: updateLabelConf ps label conf

/-- First-match lookup in an association list of labels, mirroring a
Python dict access on the label_confidence dict (whose keys are unique by
construction). -/
def lookupLC : List LabelConf → String → Option ℚ
  | [], _ => none
  | p :: ps, l => if p.1 = l then some p.2 else lookupLC ps l

/-- Descending-confidence order used by the final
list.sort(key=confidence, reverse=True); Python sort is stable, and
Mathlib insertionSort with this relation is the corresponding stable
descending sort. -/
def confGE (a b : LabelConf) : Prop := b.2 ≤ a.2

instance : DecidableRel confGE := fun a b => inferInstanceAs (Decidable (b.2 ≤ a.2))

instance : IsTotal LabelConf confGE := ⟨fun a b => le_total b.2 a.2⟩

instance : IsTrans LabelConf confGE := ⟨fun _ _ _ h1 h2 => le_trans h2 h1⟩

/-- Embedding of YOLODetector.extract_unique_labels: build the per-label
best-confidence dict, convert to a list, sort descending by confidence. -/
def extract_unique_labels (detections : List Detection) : List LabelConf :=
  List.insertionSort confGE
    (detections.foldl (fun acc d => updateLabelConf acc d.label d.confidence) [])

/-- Confidences attached to a given label in a raw detection list. -/
def confsOf (detections : List Detection) (l : String) : List ℚ :=
  (detections.filter fun d => d.label = l).map Detection.confidence

/-! ### Processing pipeline (src/backend/app/tasks/image_processing.py)

The task process_image is modelled as a function from the outcomes of its
external collaborators (MongoDB lookup, MinIO download, PIL decoding,
hashing, detection) to the sequence of database writes it performs plus
its outcome.  The Celery retry loop (max_retries=3 on the task decorator;
self.retry is raised while self.request.retries < self.max_retries) is
modelled on top of it. -/

/-- Structural metadata extracted by the pipeline (the exif sub-map is not
modelled; no claim concerns its content). -/
structure Metadata where
  width : Nat
  height : Nat
  format : String
  mode : String
  size_bytes : Nat
deriving DecidableEq, Repr

/-- One database write performed by the pipeline (the pymongo calls in
process_image).  Reads are not modelled; their results come from Env. -/
inductive DbOp where
  /-- db.images.update_one setting status="processing" and
      processing_started_at (image_processing.py lines 41-49). -/
  | setProcessing : DbOp
  /-- the per-label find-or-insert into db.tags plus the upsert into
      db.image_tags attaching one (lowercased label, confidence)
      association to the image (lines 152-181). -/
  | attachTag (label : String) (confidence : ℚ) : DbOp
  /-- the terminal db.images.update_one with update_data
      (lines 188-203). -/
  | terminalUpdate (metadata : Metadata) (phash : Option String)
      (thumbnail_key : Option String) (tag_count : Nat) : DbOp
  /-- the failure-path db.images.update_one setting status="failed",
      error and processed_at (lines 218-227). -/
  | setFailed (error : String) : DbOp
deriving DecidableEq

/-- Whether a write is the terminal update of the success path. -/
def isTerminal : DbOp → Bool
  | DbOp.terminalUpdate _ _ _ _ => true
  | _ => false

/-- MongoDB field names written by each update ($set document keys; for
attachTag these are the fields of the image_tags association document,
which lives in a separate collection from the images record). -/
def updateKeys : DbOp → List String
  | DbOp.setProcessing => ["status", "processing_started_at"]
  | DbOp.attachTag _ _ => ["confidence", "source", "created_at"]
  | DbOp.terminalUpdate _ _ tk _ =>
      ["metadata", "phash", "status", "processed_at", "tag_count"]
        ++ (if tk.isSome then ["thumbnail_key"] else [])
  | DbOp.setFailed _ => ["status", "error", "processed_at"]

/-- Environment of one execution of process_image: the results of its
external collaborators.  The same environment is reused across retries,
which models a job whose error is persistent. -/
structure Env where
  /-- db.images.find_one found the record -/
  imageFound : Bool
  /-- storage.download_file returned data -/
  downloadOk : Bool
  /-- Image.open / verify / reopen succeeded -/
  imageValid : Bool
  /-- metadata extracted from the decoded image -/
  metadata : Metadata
  /-- storage.upload_file for the thumbnail succeeded -/
  thumbOk : Bool
  /-- the derived thumbnails/... key -/
  thumbKey : String
  /-- compute_phash result: some hex string, or none (Python None) since
      compute_phash catches every exception and returns None -/
  phashResult : Option String
  /-- detector.detect_objects result (already the empty list when the
      detector caught an internal error) -/
  detections : List Detection
deriving DecidableEq, Repr

/-- Outcome of one execution of the task body. -/
inductive Outcome where
  | success : Outcome
  | failure (error : String) : Outcome
deriving DecidableEq, Repr

/-- Database writes of the tag-persistence loop: one association per
reduced label, keyed by the lowercased label name (the code looks up
db.tags by label.lower()). -/
def tagOps (labels : List LabelConf) : List DbOp :=
  labels.map fun p => DbOp.attachTag p.1.toLower p.2

/-- Embedding of one execution of the process_image task body: the list
of database writes it performs, in order, and its outcome.  The three
fallible steps (record lookup, storage download, image decode+verify) all
raise a plain Exception, caught by the single handler that writes
status="failed" and then decides whether to retry; on the success path
the tag loop runs and then the terminal update is issued. -/
def process_image (env : Env) : List DbOp × Outcome :=
  if !env.imageFound then
    ([DbOp.setProcessing, DbOp.setFailed "Image not found in database"],
      Outcome.failure "Image not found in database")
  else if !env.downloadOk then
    ([DbOp.setProcessing, DbOp.setFailed "Failed to download image from storage"],
      Outcome.failure "Failed to download image from storage")
  else if !env.imageValid then
    ([DbOp.setProcessing, DbOp.setFailed "Invalid or corrupted image file"],
      Outcome.failure "Invalid or corrupted image file")
  else
    let labels := extract_unique_labels env.detections
    ([DbOp.setProcessing] ++ tagOps labels
        ++ [DbOp.terminalUpdate env.metadata env.phashResult
              (if env.thumbOk then some env.thumbKey else none) labels.length],
      Outcome.success)

/-- Whether the task body raises (all three fallible steps raise plain
exceptions that take the same retry path). -/
def attemptFails (env : Env) : Bool :=
  !env.imageFound || !env.downloadOk || !env.imageValid

/-- The Celery retry loop, linearized: the argument is the number of
retries still allowed (max_retries minus self.request.retries, so the
check retries < max_retries is the check 0 < remaining).  Returns the
concatenated database-write trace over all executions together with the
number of executions performed. -/
def runCount (env : Env) : Nat → List DbOp × Nat
  | 0 => ((process_image env).1, 1)
  | rem + 1 =>
      match process_image env with
      | (ops, Outcome.success) => (ops, 1)
      | (ops, Outcome.failure _) =>
          let rest := runCount env rem
          (ops ++ rest.1, 1 + rest.2)

/-- A full job: the task starts with retries = 0 and max_retries = 3
(task decorator, image_processing.py line 24), so 3 retries remain. -/
def runJob (env : Env) : List DbOp × Nat :=
  runCount env 3

/-! ### The images record (state affected by the writes above) -/

/-- The mutable state the claims observe: the images document of one
image plus its image_tags associations (kept in a separate collection but
belonging to this record).  Option-valued fields are absent until first
written; phash distinguishes an absent key (none) from a key explicitly
set to null (some none), since the terminal update always writes the
phash key, possibly with value None. -/
structure ImageDoc where
  status : String
  processing_started : Bool
  metadata : Option Metadata
  phash : Option (Option String)
  thumbnail_key : Option String
  tag_count : Option Nat
  processed_at : Bool
  error : Option String
  /-- the (lowercased label, confidence) associations in image_tags -/
  assocs : List LabelConf
deriving DecidableEq, Repr

/-- Effect of one database write on the record.  The attachTag upsert is
keyed on (image_id, tag_id), i.e. on the lowercased label: an existing
association gets its confidence replaced, otherwise a new one is
inserted. -/
def applyOp (doc : ImageDoc) : DbOp → ImageDoc
  | DbOp.setProcessing => { doc with status := "processing", processing_started := true }
  | DbOp.attachTag l c =>
      { doc with assocs :=
          if (doc.assocs.filter fun p => p.1 = l).length ≠ 0 then
            doc.assocs.map fun p => if p.1 = l then (l, c) else p
          else doc.assocs ++ [(l, c)] }
  | DbOp.terminalUpdate md ph tk tc =>
      { doc with
          metadata := some md
          phash := some ph
          status := "completed"
          processed_at := true
          tag_count := some tc
          thumbnail_key := (match tk with | some k => some k | none => doc.thumbnail_key) }
  | DbOp.setFailed e =>
      { doc with status := "failed", error := some e, processed_at := true }

/-- Apply a sequence of writes in order. -/
def applyOps (doc : ImageDoc) (ops : List DbOp) : ImageDoc :=
  ops.foldl applyOp doc

/-- Document created by the upload endpoint
(src/backend/app/routers/images.py, upload_images, lines 46-55): status
"pending", no derived fields, no associations. -/
def uploadDoc : ImageDoc :=
  { status := "pending", processing_started := false, metadata := none, phash := none,
    thumbnail_key := none, tag_count := none, processed_at := false, error := none,
    assocs := [] }

/-- Document created by the ingest endpoint
(src/backend/app/routers/images.py, ingest_image, lines 318-330): born
with status "completed", an empty tags array, and no derived fields. -/
def ingestDoc : ImageDoc :=
  { uploadDoc with status := "completed" }

/-- Record state observable after the first n database writes of a job
running against a record created by the upload endpoint. -/
def stateAfter (env : Env) (n : Nat) : ImageDoc :=
  applyOps uploadDoc ((runJob env).1.take n)

/-! ### Duplicate grouping (src/backend/app/routers/search.py, find_duplicates)

The endpoint queries the images of one user whose phash field exists and
is non-null, truncates the cursor to 1000 documents (to_list length), and
then runs a greedy seed-absorption pass: each not-yet-processed record
seeds a group and absorbs every later not-yet-processed record within
threshold Hamming distance of the seed; groups of size at least 2 are
returned. -/

/-- The projection of an images document the grouping reads: its _id and
its phash field (none models both an absent and a null phash, which the
query treats identically). -/
structure ImageRec where
  rid : Nat
  phash : Option String
deriving DecidableEq, Repr

/-- Distance between two records as computed in the inner loop:
hamming_distance(img1["phash"], img2["phash"]).  Records reaching this
point always carry a hash (the query filtered on it); the getD default is
never read on inputs produced by find_duplicates. -/
def pairDist (a b : ImageRec) : Nat :=
  hamming_distance (a.phash.getD "") (b.phash.getD "")

/-- Inner loop of find_duplicates (lines 131-139): scan the records after
the seed, skip those whose _id is already in the processed set, absorb
those within threshold of the seed, adding their _id to the processed
set.  Returns the absorbed records in scan order and the final processed
set. -/
def absorbScan (threshold : Nat) (seed : ImageRec) :
    List ImageRec → List Nat → List ImageRec × List Nat
  | [], processed => ([], processed)
  | r :: rest, processed =>
      if r.rid ∈ processed then absorbScan threshold seed rest processed
      else if pairDist seed r ≤ threshold then
        (r :: (absorbScan threshold seed rest (r.rid :: processed)).1,
          (absorbScan threshold seed rest (r.rid :: processed)).2)
      else absorbScan threshold seed rest processed

/-- Outer loop of find_duplicates (lines 125-173): each unprocessed
record seeds a group; groups with more than one member are emitted.  The
per-group similarity score computed for the response is not modelled; no
claim concerns it. -/
def groupPass (threshold : Nat) : List ImageRec → List Nat → List (List ImageRec)
  | [], _ => []
  | r :: rest, processed =>
      if r.rid ∈ processed then groupPass threshold rest processed
      else
        if 1 < (r :: (absorbScan threshold r rest processed).1).length then
          (r :: (absorbScan threshold r rest processed).1)
            :: groupPass threshold rest (absorbScan threshold r rest processed).2
        else groupPass threshold rest (absorbScan threshold r rest processed).2

/-- The records the grouping actually considers: the user's images with a
usable fingerprint, truncated to the first 1000 returned by the query. -/
def consideredRecords (userImages : List ImageRec) : List ImageRec :=
  (userImages.filter fun r => r.phash.isSome).take 1000

/-- Embedding of the find_duplicates endpoint on the full list of the
user's image records (in cursor order): groups of size at least 2 among
the first 1000 fingerprinted records. -/
def find_duplicates (threshold : Nat) (userImages : List ImageRec) : List (List ImageRec) :=
  groupPass threshold (consideredRecords userImages) []

/-- Total size of the groups a record belongs to in a grouping result
(zero when it belongs to no group). -/
def memberSize (r : ImageRec) (groups : List (List ImageRec)) : Nat :=
  ((groups.filter fun g => r ∈ g).map List.length).sum

/-- Trace of the success path of one execution, as a named abbreviation
for statements about it. -/
def successTrace (env : Env) : List DbOp :=
  [DbOp.setProcessing] ++ tagOps (extract_unique_labels env.detections)
    ++ [DbOp.terminalUpdate env.metadata env.phashResult
          (if env.thumbOk then some env.thumbKey else none)
          (extract_unique_labels env.detections).length]

/-- Final record state after a whole job (all attempts applied). -/
def finalState (env : Env) : ImageDoc :=
  applyOps uploadDoc (runJob env).1

/-! ### Concrete sample inputs used by witnesses and counterexamples -/

/-- Sample metadata of a small JPEG. -/
def mdSample : Metadata := ⟨100, 100, "JPEG", "RGB", 1234⟩

/-- Environment of a fully successful job with one detection. -/
def envOk : Env :=
  ⟨true, true, true, mdSample, true, "thumbnails/x.jpg", some "abcd1234abcd1234",
    [⟨"cat", mkRat 9 10, (0, 0, 0, 0)⟩]⟩

/-- Environment of a job whose storage download always fails. -/
def envDown : Env := ⟨true, false, true, mdSample, true, "thumbnails/x.jpg", none, []⟩

/-- Environment of a job given an undecodable byte buffer. -/
def envInvalid : Env := ⟨true, true, false, mdSample, true, "thumbnails/x.jpg", none, []⟩

/-- Environment of a successful job whose fingerprinting failed
(compute_phash returned None). -/
def envNoHash : Env :=
  ⟨true, true, true, mdSample, true, "thumbnails/x.jpg", none,
    [⟨"cat", mkRat 9 10, (0, 0, 0, 0)⟩]⟩

/-- Records realizing pairwise Hamming distances 5 (A-B), 3 (B-C) and
8 (A-C): 16-bit fingerprints with disjoint set bits. -/
def recA : ImageRec := ⟨1, some "f800"⟩

/-- Companion record of recA with the all-zero fingerprint. -/
def recB : ImageRec := ⟨2, some "0000"⟩

/-- Companion record at distance 3 from recB and 8 from recA. -/
def recC : ImageRec := ⟨3, some "0700"⟩

/-- Fixed input set of fingerprinted records for the threshold
counterexample. -/
def recsC8 : List ImageRec := [recA, recB, recC]

/-- Two records with identical fingerprints, used as witnesses. -/
def recW1 : ImageRec := ⟨10, some "0000"⟩

/-- Companion duplicate of recW1. -/
def recW2 : ImageRec := ⟨11, some "0000"⟩

/-- A record with no fingerprint. -/
def recNone : ImageRec := ⟨12, none⟩

/-- Raw detections of one label at confidences 0.3, 0.9, 0.5, the
instance named by the specification. -/
def dsSample : List Detection :=
  [⟨"cat", mkRat 3 10, (0, 0, 0, 0)⟩, ⟨"cat", mkRat 9 10, (0, 0, 0, 0)⟩,
    ⟨"cat", mkRat 5 10, (0, 0, 0, 0)⟩]

/-! ## Helper lemmas -/

theorem applyOps_nil (d : ImageDoc) : applyOps d [] = d := rfl

theorem applyOps_cons (d : ImageDoc) (op : DbOp) (ops : List DbOp) :
    applyOps d (op :: ops) = applyOps (applyOp d op) ops := rfl

theorem applyOps_append (d : ImageDoc) (l1 l2 : List DbOp) :
    applyOps d (l1 ++ l2) = applyOps (applyOps d l1) l2 :=
  List.foldl_append ..

theorem natToBits_length (w v : Nat) : (natToBits w v).length = w := by
  induction w generalizing v with
  | zero => rfl
  | succ w ih => simp [natToBits, ih]

theorem hex_to_hash_length {s : String} {l : List Bool}
    (h : hex_to_hash s = some l) : l.length = s.length * 4 := by
  unfold hex_to_hash at h
  rcases hv : hexToNat? s with _ | v <;> rw [hv] at h
  · exact absurd h (by simp)
  · by_cases hb : isPerfectSquare (s.length * 4) = true
    · simp only [hb, if_true] at h
      cases h
      exact natToBits_length ..
    · simp [hb] at h

theorem process_image_fail_spec (env : Env) (h : attemptFails env = true) :
    ∃ e, process_image env = ([DbOp.setProcessing, DbOp.setFailed e], Outcome.failure e) := by
  rcases hf : env.imageFound with _ | _
  · exact ⟨"Image not found in database", by simp [process_image, hf]⟩
  · rcases hd : env.downloadOk with _ | _
    · exact ⟨"Failed to download image from storage", by simp [process_image, hf, hd]⟩
    · rcases hv : env.imageValid with _ | _
      · exact ⟨"Invalid or corrupted image file", by simp [process_image, hf, hd, hv]⟩
      · exact absurd h (by simp [attemptFails, hf, hd, hv])

theorem process_image_success_spec (env : Env) (hf : env.imageFound = true)
    (hd : env.downloadOk = true) (hv : env.imageValid = true) :
    process_image env = (successTrace env, Outcome.success) := by
  simp [process_image, successTrace, hf, hd, hv]

theorem runJob_success (env : Env) (hf : env.imageFound = true)
    (hd : env.downloadOk = true) (hv : env.imageValid = true) :
    runJob env = (successTrace env, 1) := by
  unfold runJob runCount
  rw [process_image_success_spec env hf hd hv]

theorem runCount_fail_count (env : Env) (h : attemptFails env = true) (rem : Nat) :
    (runCount env rem).2 = rem + 1 := by
  obtain ⟨e, he⟩ := process_image_fail_spec env h
  induction rem with
  | zero => simp [runCount]
  | succ rem ih =>
      simp only [runCount, he]
      simp [ih]
      omega

theorem runCount_fail_status (env : Env) (h : attemptFails env = true) (rem : Nat) :
    ∀ d : ImageDoc, (applyOps d (runCount env rem).1).status = "failed" := by
  obtain ⟨e, he⟩ := process_image_fail_spec env h
  induction rem with
  | zero =>
      intro d
      simp only [runCount, he]
      rfl
  | succ rem ih =>
      intro d
      simp only [runCount, he]
      rw [applyOps_append]
      exact ih _

theorem applyOp_no_terminal (d : ImageDoc) (op : DbOp) (h : isTerminal op = false) :
    (applyOp d op).metadata = d.metadata ∧ (applyOp d op).phash = d.phash := by
  cases op with
  | setProcessing => exact ⟨rfl, rfl⟩
  | attachTag l c => exact ⟨rfl, rfl⟩
  | terminalUpdate md ph tk tc => exact absurd h (by simp [isTerminal])
  | setFailed e => exact ⟨rfl, rfl⟩

theorem applyOps_no_terminal (ops : List DbOp) :
    ∀ d : ImageDoc, (∀ op ∈ ops, isTerminal op = false) →
      (applyOps d ops).metadata = d.metadata ∧ (applyOps d ops).phash = d.phash := by
  induction ops with
  | nil => exact fun d _ => ⟨rfl, rfl⟩
  | cons op ops ih =>
      intro d h
      have h1 := applyOp_no_terminal d op (h op (List.mem_cons_self ..))
      have h2 := ih (applyOp d op) fun o ho => h o (List.mem_cons_of_mem _ ho)
      rw [applyOps_cons]
      exact ⟨h2.1.trans h1.1, h2.2.trans h1.2⟩

theorem runCount_fail_no_terminal (env : Env) (h : attemptFails env = true) (rem : Nat) :
    ∀ op ∈ (runCount env rem).1, isTerminal op = false := by
  obtain ⟨e, he⟩ := process_image_fail_spec env h
  induction rem with
  | zero =>
      intro op hop
      simp only [runCount, he, List.mem_cons, List.not_mem_nil, or_false] at hop
      rcases hop with rfl | rfl <;> rfl
  | succ rem ih =>
      intro op hop
      simp only [runCount, he, List.mem_append, List.mem_cons, List.not_mem_nil,
        or_false] at hop
      rcases hop with (rfl | rfl) | h1
      · rfl
      · rfl
      · exact ih op h1

theorem tagOps_no_terminal (L : List LabelConf) :
    ∀ op ∈ tagOps L, isTerminal op = false := by
  intro op hop
  obtain ⟨p, _, rfl⟩ := List.mem_map.mp hop
  rfl

theorem applyOps_tagOps_fields (L : List LabelConf) :
    ∀ d : ImageDoc, (applyOps d (tagOps L)).status = d.status
      ∧ (applyOps d (tagOps L)).metadata = d.metadata
      ∧ (applyOps d (tagOps L)).phash = d.phash
      ∧ (applyOps d (tagOps L)).tag_count = d.tag_count
      ∧ (applyOps d (tagOps L)).error = d.error := by
  induction L with
  | nil => exact fun d => ⟨rfl, rfl, rfl, rfl, rfl⟩
  | cons p L ih =>
      intro d
      have hmap : tagOps (p :: L) = DbOp.attachTag p.1.toLower p.2 :: tagOps L := rfl
      rw [hmap, applyOps_cons]
      have h2 := ih (applyOp d (DbOp.attachTag p.1.toLower p.2))
      exact ⟨h2.1, h2.2.1, h2.2.2.1, h2.2.2.2.1, h2.2.2.2.2⟩

theorem updateKeys_not_tags (op : DbOp) :
    ("tags" ∉ updateKeys op) ∧ ("tag_strings" ∉ updateKeys op) := by
  cases op with
  | setProcessing => exact ⟨by decide, by decide⟩
  | attachTag l c => exact ⟨by simp [updateKeys], by simp [updateKeys]⟩
  | terminalUpdate md ph tk tc =>
      cases tk <;> exact ⟨by simp [updateKeys], by simp [updateKeys]⟩
  | setFailed e => exact ⟨by simp [updateKeys], by simp [updateKeys]⟩

/-! ## Claim C4 -/

/-- Claim C4 counterexample: comparing a 16-bit fingerprint with a 64-bit
fingerprint does return a numeric distance, the error sentinel 999.  The
source hamming_distance catches every exception internally (the embedded
function is total), so no IncompatibleHash error is raised to the caller,
contrary to the claim. -/
theorem C4_counterexample :
    hamming_distance "0000" "0000000000000000" = 999 := by decide

/-- Claim C4 (amended): for fingerprints of different declared bit-widths
(hex strings of different lengths) the distance computation returns the
numeric error sentinel 999 — never a genuine bit distance and never an
exception, since hamming_distance catches the incompatible-shape error
internally. -/
theorem C4_theorem (hash1 hash2 : String) (hne : hash1.length ≠ hash2.length) :
    hamming_distance hash1 hash2 = 999 := by
  unfold hamming_distance
  rcases e1 : hex_to_hash hash1 with _ | b1
  · rfl
  · rcases e2 : hex_to_hash hash2 with _ | b2
    · rfl
    · have l1 := hex_to_hash_length e1
      have l2 := hex_to_hash_length e2
      have hne2 : b1.length ≠ b2.length := by omega
      simp [hne2]

/-- Witness for C4_theorem at concrete cross-width fingerprints. -/
theorem C4_witness :
    ("0000" : String).length ≠ ("0000000000000000" : String).length
    ∧ hamming_distance "0000" "0000000000000000" = 999 :=
  ⟨by decide, C4_theorem "0000" "0000000000000000" (by decide)⟩

/-! ## Claim C2 -/

/-- Claim C2 counterexample: a job whose storage download always fails (a
retryable error) is executed 4 times, not the claimed 3 (Celery
max_retries=3 means 3 retries after the initial attempt), before the
record is left in status "failed". -/
theorem C2_counterexample :
    (runJob envDown).2 = 4 ∧ (runJob envDown).2 ≠ 3
      ∧ (finalState envDown).status = "failed" := by decide

/-- Claim C2 (amended): a job that always raises a retryable error is
executed exactly max_retries + 1 = 4 times (the initial attempt plus 3
retries), never more, and the record ends in status "failed" (the status
is also set to "failed" transiently at the end of every failed
attempt). -/
theorem C2_theorem (env : Env) (h : attemptFails env = true) :
    (runJob env).2 = 4 ∧ (finalState env).status = "failed" :=
  ⟨runCount_fail_count env h 3, runCount_fail_status env h 3 uploadDoc⟩

/-- Witness for C2_theorem at the always-failing download environment. -/
theorem C2_witness :
    attemptFails envDown = true
    ∧ (runJob envDown).2 = 4 ∧ (finalState envDown).status = "failed" :=
  ⟨by decide, C2_theorem envDown (by decide)⟩

/-! ## Claim C3 -/

/-- Claim C3 counterexample: a job whose byte buffer cannot be decoded is
executed 4 times, not once: the generic exception raised for an invalid
image takes the same retry path as every other error, so 3 retries are
consumed, not zero. -/
theorem C3_counterexample :
    (runJob envInvalid).2 = 4 ∧ (runJob envInvalid).2 ≠ 1 := by decide

/-- Claim C3 (amended): for a job whose byte buffer cannot be decoded,
the record is set to status "failed" already at the end of the first
attempt, but the error is not treated as non-retryable: the job is
retried like any other failure, consuming all 3 retries (4 executions in
total) before "failed" becomes terminal. -/
theorem C3_theorem (env : Env) (hf : env.imageFound = true)
    (hd : env.downloadOk = true) (hv : env.imageValid = false) :
    (applyOps uploadDoc (process_image env).1).status = "failed"
    ∧ (runJob env).2 = 4 ∧ (finalState env).status = "failed" := by
  have hA : attemptFails env = true := by simp [attemptFails, hv]
  refine ⟨?_, runCount_fail_count env hA 3, runCount_fail_status env hA 3 uploadDoc⟩
  obtain ⟨e, he⟩ := process_image_fail_spec env hA
  rw [he]
  rfl

/-- Witness for C3_theorem at the invalid-image environment. -/
theorem C3_witness :
    (applyOps uploadDoc (process_image envInvalid).1).status = "failed"
    ∧ (runJob envInvalid).2 = 4 ∧ (finalState envInvalid).status = "failed" :=
  C3_theorem envInvalid (by decide) (by decide) (by decide)

/-! ## Claim C6 -/

/-- Claim C6 (confirmed): when fingerprint computation fails
(compute_phash catches its exception and returns None), the job neither
fails nor retries: it completes on the first execution, the tag
persistence loop runs for every reduced label, and the record ends in
status "completed" with a null fingerprint (the terminal update writes
the phash key with value None) and no error. -/
theorem C6_theorem (env : Env) (hf : env.imageFound = true)
    (hd : env.downloadOk = true) (hv : env.imageValid = true)
    (hp : env.phashResult = none) :
    (runJob env).2 = 1
    ∧ (finalState env).status = "completed"
    ∧ (finalState env).phash = some none
    ∧ (finalState env).tag_count = some (extract_unique_labels env.detections).length
    ∧ (finalState env).error = none := by
  have hr := runJob_success env hf hd hv
  have hfin : finalState env = applyOps uploadDoc (successTrace env) := by
    unfold finalState
    rw [hr]
  refine ⟨by rw [hr], ?_⟩
  rw [hfin]
  unfold successTrace
  rw [applyOps_append, applyOps_append]
  have hT := applyOps_tagOps_fields (extract_unique_labels env.detections)
    (applyOps uploadDoc [DbOp.setProcessing])
  refine ⟨rfl, by rw [hp]; rfl, rfl, ?_⟩
  show (applyOps _ (tagOps _)).error = none
  rw [hT.2.2.2.2]
  rfl

/-- Witness for C6_theorem at a successful environment with a failed
fingerprint computation and one detection. -/
theorem C6_witness :
    (runJob envNoHash).2 = 1
    ∧ (finalState envNoHash).status = "completed"
    ∧ (finalState envNoHash).phash = some none
    ∧ (finalState envNoHash).tag_count
        = some (extract_unique_labels envNoHash.detections).length
    ∧ (finalState envNoHash).error = none :=
  C6_theorem envNoHash (by decide) (by decide) (by decide) (by decide)

/-! ## Claim C1 -/

/-- Claim C1 counterexample: in a fully successful run, the terminal
update is indeed the last database write, but its $set document contains
only the keys metadata, phash, status, processed_at, tag_count and
thumbnail_key — neither tags nor tag_strings — and no write of the whole
job carries a tag_strings key (the field exists only in the Pydantic
model and a maintenance script, never in the pipeline). -/
theorem C1_counterexample :
    (runJob envOk).1.getLast?
      = some (DbOp.terminalUpdate mdSample (some "abcd1234abcd1234")
          (some "thumbnails/x.jpg") 1)
    ∧ updateKeys (DbOp.terminalUpdate mdSample (some "abcd1234abcd1234")
          (some "thumbnails/x.jpg") 1)
      = ["metadata", "phash", "status", "processed_at", "tag_count", "thumbnail_key"]
    ∧ ((runJob envOk).1.all fun op => decide ("tag_strings" ∉ updateKeys op)) = true
      := by decide

/-- Claim C1 (amended): the terminal persistence step of a successful job
is a single update setting metadata, the fingerprint key (possibly null),
status completed, processed-at and tag_count (plus thumbnail_key when a
thumbnail was stored); the tags themselves are persisted beforehand by
separate per-label upserts into the image_tags collection, and no write
of the job sets a tags or tag_strings field on the images record. -/
theorem C1_theorem (env : Env) (hf : env.imageFound = true)
    (hd : env.downloadOk = true) (hv : env.imageValid = true) :
    (runJob env).1
      = [DbOp.setProcessing] ++ tagOps (extract_unique_labels env.detections)
          ++ [DbOp.terminalUpdate env.metadata env.phashResult
                (if env.thumbOk then some env.thumbKey else none)
                (extract_unique_labels env.detections).length]
    ∧ ∀ op ∈ (runJob env).1, ("tags" ∉ updateKeys op) ∧ ("tag_strings" ∉ updateKeys op) := by
  have hr := runJob_success env hf hd hv
  exact ⟨by rw [hr]; rfl, fun op _ => updateKeys_not_tags op⟩

/-- Witness for C1_theorem: the terminal write of the concrete successful
job sets neither a tags nor a tag_strings key. -/
theorem C1_witness :
    ("tags" ∉ updateKeys (DbOp.terminalUpdate envOk.metadata envOk.phashResult
        (if envOk.thumbOk then some envOk.thumbKey else none)
        (extract_unique_labels envOk.detections).length))
    ∧ ("tag_strings" ∉ updateKeys (DbOp.terminalUpdate envOk.metadata envOk.phashResult
        (if envOk.thumbOk then some envOk.thumbKey else none)
        (extract_unique_labels envOk.detections).length)) :=
  (C1_theorem envOk rfl rfl rfl).2 _ (by decide)

/-! ## Claim C5 -/

/-- Claim C5 counterexample: after the second database write of a fully
successful job (the first tag upsert of the persistence loop), the record
already has a tag association attached while its status is still
"processing" — tags are not set together with the transition into
completed. -/
theorem C5_counterexample :
    (stateAfter envOk 2).status = "processing"
    ∧ (stateAfter envOk 2).assocs ≠ [] := by decide

/-- Claim C5 (amended): the metadata and fingerprint half of the
invariant does hold — in every state reachable during a job run against
an uploaded record, a set metadata or phash field implies status
"completed", because only the terminal write sets them — but the tags
half does not: tag associations are attached one by one while the record
status is still "processing" (see the counterexample). -/
theorem C5_theorem (env : Env) (n : Nat)
    (h : (stateAfter env n).metadata ≠ none ∨ (stateAfter env n).phash ≠ none) :
    (stateAfter env n).status = "completed" := by
  by_cases hA : attemptFails env = true
  · exfalso
    have hnt : ∀ op ∈ ((runJob env).1.take n), isTerminal op = false := fun op hop =>
      runCount_fail_no_terminal env hA 3 op (List.take_subset n _ hop)
    have hpres := applyOps_no_terminal ((runJob env).1.take n) uploadDoc hnt
    rcases h with h | h
    · exact h (hpres.1.trans rfl)
    · exact h (hpres.2.trans rfl)
  · have hflags : env.imageFound = true ∧ env.downloadOk = true ∧ env.imageValid = true := by
      revert hA
      unfold attemptFails
      rcases env.imageFound <;> rcases env.downloadOk <;> rcases env.imageValid <;> simp
    have hr := runJob_success env hflags.1 hflags.2.1 hflags.2.2
    have hstate : stateAfter env n = applyOps uploadDoc ((successTrace env).take n) := by
      unfold stateAfter
      rw [hr]
    set A : List DbOp :=
      [DbOp.setProcessing] ++ tagOps (extract_unique_labels env.detections) with hAdef
    set tu : DbOp :=
      DbOp.terminalUpdate env.metadata env.phashResult
        (if env.thumbOk then some env.thumbKey else none)
        (extract_unique_labels env.detections).length with hTUdef
    have htrace : successTrace env = A ++ [tu] := by
      rw [hAdef, hTUdef]
      simp [successTrace]
    by_cases hn : n ≤ A.length
    · exfalso
      have htake : (successTrace env).take n = A.take n := by
        rw [htrace, List.take_append_eq_append_take]
        have : n - A.length = 0 := by omega
        rw [this]
        simp
      have hnt : ∀ op ∈ (successTrace env).take n, isTerminal op = false := by
        intro op hop
        rw [htake] at hop
        have hopA : op ∈ A := List.take_subset n A hop
        rw [hAdef] at hopA
        rcases List.mem_append.mp hopA with h1 | h1
        · rcases List.mem_cons.mp h1 with rfl | h2
          · rfl
          · exact absurd h2 (List.not_mem_nil op)
        · exact tagOps_no_terminal _ op h1
      have hpres := applyOps_no_terminal ((successTrace env).take n) uploadDoc hnt
      rw [hstate] at h
      rcases h with h | h
      · exact h (hpres.1.trans rfl)
      · exact h (hpres.2.trans rfl)
    · have hfull : (successTrace env).take n = A ++ [tu] := by
        rw [← htrace]
        refine List.take_of_length_le ?_
        rw [htrace]
        simp only [List.length_append, List.length_cons, List.length_nil]
        omega
      rw [hstate, hfull, applyOps_append]
      rfl

/-- Witness for C5_theorem: after all three writes of the concrete
successful job the metadata field is set, and the status is indeed
"completed". -/
theorem C5_witness : (stateAfter envOk 3).status = "completed" :=
  C5_theorem envOk 3 (Or.inl (by decide))

/-! ## Grouping helper lemmas -/

theorem absorbScan_subset (t : Nat) (s : ImageRec) :
    ∀ (rest : List ImageRec) (p : List Nat) (r : ImageRec),
      r ∈ (absorbScan t s rest p).1 → r ∈ rest := by
  intro rest
  induction rest with
  | nil =>
      intro p r h
      exact absurd h (List.not_mem_nil r)
  | cons x xs ih =>
      intro p r h
      unfold absorbScan at h
      by_cases h1 : x.rid ∈ p
      · rw [if_pos h1] at h
        exact List.mem_cons_of_mem _ (ih p r h)
      · rw [if_neg h1] at h
        by_cases h2 : pairDist s x ≤ t
        · rw [if_pos h2] at h
          rcases List.mem_cons.mp h with rfl | h3
          · exact List.mem_cons_self ..
          · exact List.mem_cons_of_mem _ (ih _ r h3)
        · rw [if_neg h2] at h
          exact List.mem_cons_of_mem _ (ih p r h)

theorem groupPass_subset (t : Nat) :
    ∀ (l : List ImageRec) (p : List Nat) (g : List ImageRec) (r : ImageRec),
      g ∈ groupPass t l p → r ∈ g → r ∈ l := by
  intro l
  induction l with
  | nil =>
      intro p g r hg _
      exact absurd hg (List.not_mem_nil g)
  | cons x xs ih =>
      intro p g r hg hr
      unfold groupPass at hg
      by_cases h1 : x.rid ∈ p
      · rw [if_pos h1] at hg
        exact List.mem_cons_of_mem _ (ih p g r hg hr)
      · rw [if_neg h1] at hg
        by_cases h2 : 1 < (x :: (absorbScan t x xs p).1).length
        · rw [if_pos h2] at hg
          rcases List.mem_cons.mp hg with rfl | h3
          · rcases List.mem_cons.mp hr with rfl | h4
            · exact List.mem_cons_self ..
            · exact List.mem_cons_of_mem _ (absorbScan_subset t x xs p r h4)
          · exact List.mem_cons_of_mem _ (ih _ g r h3 hr)
        · rw [if_neg h2] at hg
          exact List.mem_cons_of_mem _ (ih _ g r hg hr)

theorem absorbScan_eq_filter (t : Nat) (s : ImageRec) :
    ∀ (rest : List ImageRec) (p : List Nat), (rest.map ImageRec.rid).Nodup →
      (absorbScan t s rest p).1
        = rest.filter fun x => decide (x.rid ∉ p) && decide (pairDist s x ≤ t) := by
  intro rest
  induction rest with
  | nil => intro p _; rfl
  | cons x xs ih =>
      intro p hnd
      have hx : x.rid ∉ xs.map ImageRec.rid := (List.nodup_cons.mp hnd).1
      have hxs : (xs.map ImageRec.rid).Nodup := (List.nodup_cons.mp hnd).2
      unfold absorbScan
      by_cases h1 : x.rid ∈ p
      · rw [if_pos h1, ih p hxs, List.filter_cons]
        have hpred : (decide (x.rid ∉ p) && decide (pairDist s x ≤ t)) = false := by
          simp [h1]
        rw [hpred]
        simp
      · rw [if_neg h1]
        by_cases h2 : pairDist s x ≤ t
        · rw [if_pos h2]
          have hcongr : (xs.filter fun y =>
                decide (y.rid ∉ x.rid :: p) && decide (pairDist s y ≤ t))
              = xs.filter fun y => decide (y.rid ∉ p) && decide (pairDist s y ≤ t) := by
            refine List.filter_congr ?_
            intro y hy
            have hne : y.rid ≠ x.rid := by
              intro he
              exact hx (he ▸ List.mem_map_of_mem ImageRec.rid hy)
            simp [List.mem_cons, hne]
          rw [List.filter_cons]
          have hpred : (decide (x.rid ∉ p) && decide (pairDist s x ≤ t)) = true := by
            simp [h1, h2]
          rw [hpred, ih (x.rid :: p) hxs, hcongr]
          simp
        · rw [if_neg h2, ih p hxs, List.filter_cons]
          have hpred : (decide (x.rid ∉ p) && decide (pairDist s x ≤ t)) = false := by
            simp [h2]
          rw [hpred]
          simp

/-! ## Claim C7 -/

/-- Claim C7 (confirmed): an image record with no fingerprint never
appears in any returned duplicate group (every group member carries a
fingerprint, because the database query filters on a non-null phash
before grouping), and removing or inserting such a record anywhere in the
user's image list leaves the grouping result unchanged — its absence
never blocks other records from being grouped. -/
theorem C7_theorem :
    (∀ (t : Nat) (images : List ImageRec) (g : List ImageRec) (r : ImageRec),
      g ∈ find_duplicates t images → r ∈ g → r.phash.isSome = true)
    ∧ ∀ (t : Nat) (l1 l2 : List ImageRec) (r : ImageRec), r.phash = none →
        find_duplicates t (l1 ++ r :: l2) = find_duplicates t (l1 ++ l2) := by
  constructor
  · intro t images g r hg hr
    have h1 : r ∈ consideredRecords images := groupPass_subset t _ [] g r hg hr
    have h2 : r ∈ images.filter fun x => x.phash.isSome :=
      List.take_subset 1000 _ h1
    have h3 := List.of_mem_filter h2
    exact h3
  · intro t l1 l2 r hr
    have hfil : ((l1 ++ r :: l2).filter fun x => x.phash.isSome)
        = (l1 ++ l2).filter fun x => x.phash.isSome := by
      simp [List.filter_append, List.filter_cons, hr]
    unfold find_duplicates consideredRecords
    rw [hfil]

/-- Witness for C7_theorem: dropping the fingerprint-less record recNone
from a concrete list changes nothing. -/
theorem C7_witness :
    find_duplicates 8 [recW1, recNone, recW2] = find_duplicates 8 [recW1, recW2] :=
  C7_theorem.2 8 [recW1] [recW2] recNone rfl

/-! ## Claim C10 -/

/-- Claim C10 (confirmed): the duplicate grouping considers at most the
first 1000 fingerprinted records returned by the database query (the
cursor is drained with to_list(length=1000)): every member of every
returned group lies in the first 1000 elements of the filtered query
result, so any record beyond that prefix never appears in any group, for
any threshold. -/
theorem C10_theorem (t : Nat) (images : List ImageRec) (g : List ImageRec)
    (r : ImageRec) (hg : g ∈ find_duplicates t images) (hr : r ∈ g) :
    r ∈ (images.filter fun x => x.phash.isSome).take 1000 :=
  groupPass_subset t _ [] g r hg hr

/-- Witness for C10_theorem at a concrete grouped pair. -/
theorem C10_witness :
    recW1 ∈ ([recW1, recW2].filter fun x => x.phash.isSome).take 1000 :=
  C10_theorem 0 [recW1, recW2] [recW1, recW2] recW1 (by decide) (by decide)

theorem absorbScan_nil_processed (t : Nat) (r0 : ImageRec) (rest : List ImageRec)
    (hnd : (rest.map ImageRec.rid).Nodup) :
    (absorbScan t r0 rest []).1 = rest.filter fun x => decide (pairDist r0 x ≤ t) := by
  rw [absorbScan_eq_filter t r0 rest [] hnd]
  refine List.filter_congr ?_
  intro y _
  simp

theorem groupPass_head (t : Nat) (r0 : ImageRec) (rest : List ImageRec) :
    groupPass t (r0 :: rest) []
      = if 1 < (r0 :: (absorbScan t r0 rest []).1).length then
          (r0 :: (absorbScan t r0 rest []).1)
            :: groupPass t rest (absorbScan t r0 rest []).2
        else groupPass t rest (absorbScan t r0 rest []).2 := by
  simp only [groupPass]
  rw [if_neg (List.not_mem_nil r0.rid)]

/-! ## Claim C8 -/

/-- Claim C8 counterexample: on the fixed input recsC8 with pairwise
distances d(A,B)=5, d(B,C)=3, d(A,C)=8, raising the threshold from 4 to 5
shrinks the group membership of record C: at threshold 4 the groups are
[[B, C]] (C in a group of size 2), at threshold 5 the seed A absorbs B
first and the groups are [[A, B]] (C in no group), so membership is not
monotone in the threshold. -/
theorem C8_counterexample :
    (4 ≤ 5)
    ∧ memberSize recC (find_duplicates 4 recsC8) = 2
    ∧ memberSize recC (find_duplicates 5 recsC8) = 0 := by decide

/-- Claim C8 (amended): threshold monotonicity fails for the greedy
seed-absorption grouping in general (see the counterexample); what holds
is monotonicity of the group seeded by the first considered record: if
the record ids are distinct, any record grouped together with the first
fingerprinted record at threshold t1 is still grouped with it at any
threshold t2 at least t1. -/
theorem C8_theorem (t1 t2 : Nat) (h12 : t1 ≤ t2) (images : List ImageRec)
    (hnd : ((consideredRecords images).map ImageRec.rid).Nodup)
    (r0 r : ImageRec) (h0 : (consideredRecords images).head? = some r0)
    (hg : ∃ g ∈ find_duplicates t1 images, r0 ∈ g ∧ r ∈ g) :
    ∃ g ∈ find_duplicates t2 images, r0 ∈ g ∧ r ∈ g := by
  obtain ⟨rest, hq⟩ : ∃ rest, consideredRecords images = r0 :: rest := by
    rcases heq : consideredRecords images with _ | ⟨a, rest⟩
    · rw [heq] at h0
      exact absurd h0 (by simp)
    · rw [heq] at h0
      simp only [List.head?_cons, Option.some.injEq] at h0
      exact ⟨rest, by rw [h0]⟩
  rw [hq] at hnd
  have hr0 : r0.rid ∉ rest.map ImageRec.rid := (List.nodup_cons.mp hnd).1
  have hrest : (rest.map ImageRec.rid).Nodup := (List.nodup_cons.mp hnd).2
  have hr0mem : r0 ∉ rest := fun hmem => hr0 (List.mem_map_of_mem _ hmem)
  have habs : ∀ t : Nat,
      (absorbScan t r0 rest []).1 = rest.filter fun x => decide (pairDist r0 x ≤ t) :=
    fun t => absorbScan_nil_processed t r0 rest hrest
  have hfd : ∀ t : Nat, find_duplicates t images = groupPass t (r0 :: rest) [] := by
    intro t
    unfold find_duplicates
    rw [hq]
  obtain ⟨g, hgmem, hg0, hgr⟩ := hg
  rw [hfd t1, groupPass_head] at hgmem
  by_cases hlen : 1 < (r0 :: (absorbScan t1 r0 rest []).1).length
  · rw [if_pos hlen] at hgmem
    rcases List.mem_cons.mp hgmem with rfl | htail
    · have hsub : ∀ x, x ∈ (absorbScan t1 r0 rest []).1 → x ∈ (absorbScan t2 r0 rest []).1 := by
        intro x hx
        rw [habs t1] at hx
        rw [habs t2]
        have hx1 := List.mem_filter.mp hx
        have hd1 : pairDist r0 x ≤ t1 := by
          have hb := hx1.2
          simp only [decide_eq_true_eq] at hb
          exact hb
        refine List.mem_filter.mpr ⟨hx1.1, ?_⟩
        simp only [decide_eq_true_eq]
        omega
      have hne1 : (absorbScan t1 r0 rest []).1 ≠ [] := by
        intro hnil
        rw [hnil] at hlen
        exact absurd hlen (by simp)
      obtain ⟨y, hy⟩ := List.exists_mem_of_ne_nil _ hne1
      have hy2 := hsub y hy
      have hlen2 : 1 < (r0 :: (absorbScan t2 r0 rest []).1).length := by
        have hpos : (absorbScan t2 r0 rest []).1.length ≠ 0 := by
          intro h0len
          rw [List.length_eq_zero] at h0len
          rw [h0len] at hy2
          exact absurd hy2 (List.not_mem_nil y)
        simp only [List.length_cons]
        omega
      rw [hfd t2, groupPass_head, if_pos hlen2]
      refine ⟨r0 :: (absorbScan t2 r0 rest []).1, List.mem_cons_self .., List.mem_cons_self .., ?_⟩
      rcases List.mem_cons.mp hgr with rfl | hin
      · exact List.mem_cons_self ..
      · exact List.mem_cons_of_mem _ (hsub r hin)
    · exact absurd (groupPass_subset t1 rest _ g r0 htail hg0) hr0mem
  · rw [if_neg hlen] at hgmem
    exact absurd (groupPass_subset t1 rest _ g r0 hgmem hg0) hr0mem

/-- Witness for C8_theorem: two identical fingerprints grouped at
threshold 0 stay grouped at threshold 1. -/
theorem C8_witness :
    ∃ g ∈ find_duplicates 1 [recW1, recW2], recW1 ∈ g ∧ recW2 ∈ g :=
  C8_theorem 0 1 (by decide) [recW1, recW2] (by decide) recW1 recW2 (by decide) (by decide)

/-! ## Tag-reduction helper lemmas -/

theorem lookupLC_update_self (acc : List LabelConf) (lab : String) (c : ℚ) :
    lookupLC (updateLabelConf acc lab c) lab
      = some ((lookupLC acc lab).elim c fun c0 => max c0 c) := by
  induction acc with
  | nil => simp [updateLabelConf, lookupLC]
  | cons p ps ih =>
      by_cases hp : p.1 = lab
      · by_cases hc : c > p.2
        · simp only [updateLabelConf, hp, if_true, hc, lookupLC, if_pos rfl,
            Option.elim_some]
          rw [max_eq_right (le_of_lt hc)]
        · simp only [updateLabelConf, hp, if_true, hc, if_false, lookupLC, if_pos hp,
            Option.elim_some]
          rw [max_eq_left (not_lt.mp hc)]
      · simp only [updateLabelConf, hp, if_false, lookupLC]
        exact ih

theorem lookupLC_update_other (acc : List LabelConf) (lab l : String) (c : ℚ)
    (hne : l ≠ lab) : lookupLC (updateLabelConf acc lab c) l = lookupLC acc l := by
  induction acc with
  | nil =>
      simp only [updateLabelConf, lookupLC]
      rw [if_neg fun h => hne h.symm]
  | cons p ps ih =>
      by_cases hp : p.1 = lab
      · by_cases hc : c > p.2
        · simp only [updateLabelConf, hp, if_true, hc, lookupLC]
          rw [if_neg fun h => hne h.symm, if_neg fun h => hne h.symm]
        · simp only [updateLabelConf, hp, if_true, hc, if_false]
      · simp only [updateLabelConf, hp, if_false, lookupLC]
        by_cases hpl : p.1 = l
        · rw [if_pos hpl, if_pos hpl]
        · rw [if_neg hpl, if_neg hpl]
          exact ih

theorem labels_update (acc : List LabelConf) (lab : String) (c : ℚ) (l : String) :
    l ∈ (updateLabelConf acc lab c).map Prod.fst
      ↔ (l = lab ∨ l ∈ acc.map Prod.fst) := by
  induction acc with
  | nil => simp [updateLabelConf]
  | cons p ps ih =>
      by_cases hp : p.1 = lab
      · by_cases hc : c > p.2
        · simp only [updateLabelConf, hp, if_true, hc, List.map_cons, List.mem_cons]
          tauto
        · simp only [updateLabelConf, hp, if_true, hc, if_false, List.map_cons,
            List.mem_cons]
          tauto
      · simp only [updateLabelConf, hp, if_false, List.map_cons, List.mem_cons, ih]
        tauto

theorem labels_update_nodup (acc : List LabelConf) (lab : String) (c : ℚ)
    (hnd : (acc.map Prod.fst).Nodup) :
    ((updateLabelConf acc lab c).map Prod.fst).Nodup := by
  induction acc with
  | nil => simp [updateLabelConf]
  | cons p ps ih =>
      have hp1 : p.1 ∉ ps.map Prod.fst := (List.nodup_cons.mp hnd).1
      have hps : (ps.map Prod.fst).Nodup := (List.nodup_cons.mp hnd).2
      by_cases hp : p.1 = lab
      · by_cases hc : c > p.2
        · simp only [updateLabelConf, hp, if_true, hc, List.map_cons]
          exact List.nodup_cons.mpr ⟨hp ▸ hp1, hps⟩
        · simp only [updateLabelConf, hp, if_true, hc, if_false]
          exact hnd
      · simp only [updateLabelConf, hp, if_false, List.map_cons]
        refine List.nodup_cons.mpr ⟨?_, ih hps⟩
        rw [labels_update]
        push_neg
        exact ⟨hp, hp1⟩

theorem lookupLC_foldl (ds : List Detection) :
    ∀ (acc : List LabelConf) (l : String),
      lookupLC (ds.foldl (fun a d => updateLabelConf a d.label d.confidence) acc) l
        = (confsOf ds l).foldl (fun o c => some (o.elim c fun c0 => max c0 c))
            (lookupLC acc l) := by
  induction ds with
  | nil => intro acc l; rfl
  | cons d ds ih =>
      intro acc l
      rw [List.foldl_cons, ih]
      by_cases hd : d.label = l
      · subst hd
        have hc : confsOf (d :: ds) d.label = d.confidence :: confsOf ds d.label := by
          simp [confsOf, List.filter_cons]
        rw [hc, List.foldl_cons, lookupLC_update_self]
      · have hc : confsOf (d :: ds) l = confsOf ds l := by
          simp [confsOf, List.filter_cons, hd]
        rw [hc, lookupLC_update_other acc d.label l d.confidence fun h => hd h.symm]

theorem foldl_some_max (cs : List ℚ) (m : ℚ) :
    cs.foldl (fun o c => some (o.elim c fun c0 => max c0 c)) (some m)
      = some (cs.foldl max m) := by
  induction cs generalizing m with
  | nil => rfl
  | cons c cs ih => simp only [List.foldl_cons, Option.elim_some]; exact ih ..

theorem foldl_none_max (c : ℚ) (cs : List ℚ) :
    (c :: cs).foldl (fun o x => some (o.elim x fun c0 => max c0 x)) none
      = some (cs.foldl max c) :=
  foldl_some_max cs c

theorem foldl_max_mem (cs : List ℚ) : ∀ c : ℚ, cs.foldl max c ∈ c :: cs := by
  induction cs with
  | nil => intro c; exact List.mem_cons_self ..
  | cons x xs ih =>
      intro c
      rw [List.foldl_cons]
      rcases List.mem_cons.mp (ih (max c x)) with h | h
      · rcases max_choice c x with hm | hm
        · rw [h, hm]
          exact List.mem_cons_self ..
        · rw [h, hm]
          exact List.mem_cons_of_mem _ (List.mem_cons_self ..)
      · exact List.mem_cons_of_mem _ (List.mem_cons_of_mem _ h)

theorem le_foldl_max (cs : List ℚ) : ∀ c : ℚ, ∀ x ∈ c :: cs, x ≤ cs.foldl max c := by
  induction cs with
  | nil =>
      intro c x hx
      rcases List.mem_cons.mp hx with rfl | h
      · exact le_refl x
      · exact absurd h (List.not_mem_nil x)
  | cons y ys ih =>
      intro c x hx
      rw [List.foldl_cons]
      rcases List.mem_cons.mp hx with rfl | h
      · exact le_trans (le_max_left x y) (ih (max x y) _ (List.mem_cons_self ..))
      · rcases List.mem_cons.mp h with rfl | h2
        · exact le_trans (le_max_right c x) (ih (max c x) _ (List.mem_cons_self ..))
        · exact ih (max c y) x (List.mem_cons_of_mem _ h2)

theorem lookupLC_eq_none_iff (acc : List LabelConf) (l : String) :
    lookupLC acc l = none ↔ l ∉ acc.map Prod.fst := by
  induction acc with
  | nil => simp [lookupLC]
  | cons p ps ih =>
      by_cases hp : p.1 = l
      · simp [lookupLC, hp]
      · simp only [lookupLC, hp, if_false, List.map_cons, List.mem_cons, ih]
        constructor
        · intro h hc
          rcases hc with hc | hc
          · exact hp hc.symm
          · exact h hc
        · intro h
          exact fun hc => h (Or.inr hc)

theorem lookupLC_of_mem :
    ∀ (acc : List LabelConf), (acc.map Prod.fst).Nodup →
      ∀ p ∈ acc, lookupLC acc p.1 = some p.2 := by
  intro acc
  induction acc with
  | nil =>
      intro _ p hp
      exact absurd hp (List.not_mem_nil p)
  | cons q qs ih =>
      intro hnd p hp
      have hq1 : q.1 ∉ qs.map Prod.fst := (List.nodup_cons.mp hnd).1
      have hqs : (qs.map Prod.fst).Nodup := (List.nodup_cons.mp hnd).2
      rcases List.mem_cons.mp hp with rfl | h
      · simp [lookupLC]
      · have hne : ¬ q.1 = p.1 := by
          intro he
          exact hq1 (he ▸ List.mem_map_of_mem Prod.fst h)
        simp only [lookupLC, hne, if_false]
        exact ih hqs p h

theorem filter_fst_length (l : String) :
    ∀ (acc : List LabelConf), (acc.map Prod.fst).Nodup →
      (acc.filter fun p => decide (p.1 = l)).length
        = if l ∈ acc.map Prod.fst then 1 else 0 := by
  intro acc
  induction acc with
  | nil => intro _; simp
  | cons q qs ih =>
      intro hnd
      have hq1 : q.1 ∉ qs.map Prod.fst := (List.nodup_cons.mp hnd).1
      have hqs : (qs.map Prod.fst).Nodup := (List.nodup_cons.mp hnd).2
      by_cases hp : q.1 = l
      · rw [List.filter_cons_of_pos (by simp [hp])]
        have hnot : l ∉ qs.map Prod.fst := hp ▸ hq1
        rw [List.length_cons, ih hqs, if_neg hnot]
        simp [hp]
      · rw [List.filter_cons_of_neg (by simp [hp])]
        rw [ih hqs]
        have hcond : (l ∈ List.map Prod.fst (q :: qs)) ↔ l ∈ List.map Prod.fst qs := by
          rw [List.map_cons, List.mem_cons]
          constructor
          · intro h
            rcases h with h | h
            · exact absurd h.symm hp
            · exact h
          · exact Or.inr
        simp only [hcond]

theorem foldl_update_nodup (ds : List Detection) :
    ∀ acc : List LabelConf, (acc.map Prod.fst).Nodup →
      (((ds.foldl (fun a d => updateLabelConf a d.label d.confidence) acc)).map
        Prod.fst).Nodup := by
  induction ds with
  | nil => intro acc h; exact h
  | cons d ds ih =>
      intro acc h
      rw [List.foldl_cons]
      exact ih _ (labels_update_nodup acc d.label d.confidence h)

/-! ## Claim C9 -/

/-- Claim C9 (confirmed): the tag reduction emits exactly one entry per
distinct detected label (one when the label occurs in the raw detections,
zero otherwise), each entry carries the maximum confidence observed for
its label, and the output is sorted by non-increasing confidence; in
particular the specified instance — one label at confidences 0.3, 0.9,
0.5 — reduces to that label exactly once at confidence 0.9. -/
theorem C9_theorem (ds : List Detection) :
    List.Sorted confGE (extract_unique_labels ds)
    ∧ (∀ l : String,
        ((extract_unique_labels ds).filter fun p => decide (p.1 = l)).length
          = if confsOf ds l = [] then 0 else 1)
    ∧ (∀ p ∈ extract_unique_labels ds,
        p.2 ∈ confsOf ds p.1 ∧ ∀ c ∈ confsOf ds p.1, c ≤ p.2)
    ∧ extract_unique_labels dsSample = [("cat", mkRat 9 10)] := by
  have hnd : (((ds.foldl (fun a d => updateLabelConf a d.label d.confidence)
      [])).map Prod.fst).Nodup := foldl_update_nodup ds [] (by simp)
  have hperm : List.Perm (extract_unique_labels ds)
      (ds.foldl (fun a d => updateLabelConf a d.label d.confidence) []) :=
    List.perm_insertionSort confGE _
  have hlook : ∀ l : String,
      lookupLC (ds.foldl (fun a d => updateLabelConf a d.label d.confidence) []) l
        = (confsOf ds l).foldl (fun o c => some (o.elim c fun c0 => max c0 c)) none :=
    fun l => lookupLC_foldl ds [] l
  refine ⟨List.sorted_insertionSort confGE _, ?_, ?_, by decide⟩
  · intro l
    rw [(hperm.filter _).length_eq, filter_fst_length l _ hnd]
    rcases hcs : confsOf ds l with _ | ⟨c, cs⟩
    · have hnone : lookupLC
          (ds.foldl (fun a d => updateLabelConf a d.label d.confidence) []) l = none := by
        rw [hlook l, hcs]
        rfl
      have hmem := (lookupLC_eq_none_iff _ l).mp hnone
      rw [if_pos rfl, if_neg hmem]
    · have hmem : l ∈ (ds.foldl (fun a d => updateLabelConf a d.label d.confidence)
          []).map Prod.fst := by
        by_contra hmem
        have hnone := (lookupLC_eq_none_iff _ l).mpr hmem
        rw [hlook l, hcs, foldl_none_max] at hnone
        exact absurd hnone (by simp)
      rw [if_pos hmem, if_neg (List.cons_ne_nil c cs)]
  · intro p hp
    have hpacc : p ∈ ds.foldl (fun a d => updateLabelConf a d.label d.confidence) [] :=
      hperm.mem_iff.mp hp
    have hsome := lookupLC_of_mem _ hnd p hpacc
    rw [hlook p.1] at hsome
    rcases hcs : confsOf ds p.1 with _ | ⟨c, cs⟩
    · rw [hcs] at hsome
      exact absurd hsome (by simp [List.foldl_nil])
    · rw [hcs, foldl_none_max] at hsome
      have hval : p.2 = cs.foldl max c := by
        have := Option.some.inj hsome
        exact this.symm
      constructor
      · rw [hval]
        exact foldl_max_mem cs c
      · intro x hx
        rw [hval]
        exact le_foldl_max cs c x hx

/-- Witness for C9_theorem at the specified concrete instance: the entry
("cat", 0.9) is in the reduced output and 0.9 is one of the observed
confidences for that label. -/
theorem C9_witness :
    ("cat", mkRat 9 10) ∈ extract_unique_labels dsSample
    ∧ mkRat 9 10 ∈ confsOf dsSample "cat" :=
  ⟨by decide, ((C9_theorem dsSample).2.2.1 ("cat", mkRat 9 10) (by decide)).1⟩

end ImageTagger
